import Mathlib

/-!
# Verification of the SUS ("Sudo in UserSpace") kernel

A shallow embedding of the privileged back-end of the `sus` repository:
the request-servicing loop (`src/bin/sus-kernel/request.rs`), the
sudoers-style policy loader and rule model
(`src/bin/sus-kernel/permission/verify/sudoers.rs`,
`sudoers_type.rs`, `parsed_sudoers_type.rs`), and the identity-drop /
`execve` sequence (`src/bin/sus-kernel/executable/run/exec.rs`).

Conventions of the embedding:
* POSIX uids/gids (`nix::unistd::Uid`/`Gid`, `u32` wrappers) are `Nat`;
  only equality and set membership are ever performed on them, so no
  wrap-around arithmetic arises.
* Rust `HashSet` values become `Finset Nat` / `Finset String`;
  `CString` values become `String`.
* Fallible operations return `Option`/`Except`.  An `unwrap` or a
  `HashMap` index that can panic is modelled as the `none` case of an
  `Option`-returning function.
* External collaborators (name service, syscalls, the JSON decoder, the
  log sink) are parameters of the functions that use them.
* The crate is modelled with the `log` feature enabled, which is the
  configuration the specification describes (mandatory audit hook).
-/

namespace Sus

/-- A POSIX permission set, from `permission/mod.rs` (`struct Permission`):
uid, primary gid, and a set of secondary gids which may or may not
contain the primary gid itself. -/
structure Permission where
  uid : Nat
  primary_gid : Nat
  secondary_gids : Finset Nat
deriving DecidableEq

/-- An executable program, from `executable/mod.rs` (`struct Executable`):
the path and the argument vector. -/
structure Executable where
  path : String
  args : List String
deriving DecidableEq

/-- Verification errors, from `permission/verify/mod.rs` (`enum
VerifyError`).  The `Box<dyn Error>` payloads carry only display text and
are dropped in the embedding. -/
inductive VerifyError
  | notAllowed
  | notFound
  | malformed
deriving DecidableEq

/-- `VerifyResult = Result<(), VerifyError>`. -/
abbrev VerifyResult := Except VerifyError Unit

/-- Rust's `Result::or`: keep `a` if it is `Ok`, otherwise use `b`. -/
def exceptOr {ε α : Type} (a b : Except ε α) : Except ε α :=
  match a with
  | Except.ok v => Except.ok v
  | Except.error _ => b

/-- Whether a `VerifyResult` is an allow (`Ok`). -/
def isAllow : VerifyResult → Bool
  | Except.ok _ => true
  | Except.error _ => false

/-- A verifier, from `permission/verify/mod.rs` (`type Verifier`): a
function of the current permissions, the requested permissions and the
executable. -/
abbrev Verifier := Permission → Permission → Executable → VerifyResult

/-- Logging errors, from `log/mod.rs`.  The concrete I/O payload is
irrelevant to the claims and is dropped. -/
inductive LogError
  | ioError
deriving DecidableEq

/-- Errno values from failed syscalls (`nix::errno::Errno`). -/
abbrev Errno := Nat

/-- Runner errors, from `executable/run/mod.rs` (`enum RunError`): one
variant per syscall of the transition sequence. -/
inductive RunError
  | SetUID (errno : Errno)
  | SetPrimaryGID (errno : Errno)
  | SetSecondaryGID (errno : Errno)
  | Execute (errno : Errno)
deriving DecidableEq

/-- Errors of `Request::service`, from `request.rs` (`enum RequestError`). -/
inductive RequestError
  | verify (cause : VerifyError)
  | log (cause : LogError)
  | run (cause : RunError)
deriving DecidableEq

/-- Observable events of servicing a request: the audit-log call (with
the exact arguments the code passes) and the invocation of the runner. -/
inductive Event
  | logged (ex : Executable) (cur req : Permission) (res : VerifyResult)
  | ran (req : Permission) (ex : Executable)

/-- Whether an event is the audit-log call. -/
def Event.isLogged : Event → Bool
  | Event.logged _ _ _ _ => true
  | _ => false

/-- Whether an event is the runner invocation. -/
def Event.isRan : Event → Bool
  | Event.ran _ _ => true
  | _ => false

/-- A user request, from `request.rs` (`struct Request`).  The runner is
modelled as returning `none` when `execve` succeeds (the real function
never returns in that case) and `some e` when it fails. -/
structure Request where
  executable : Executable
  current_permissions : Permission
  requested_permissions : Permission
  verifiers : List Verifier
  runner : Permission → Executable → Option RunError
  logger : Executable → Permission → Permission → VerifyResult → Except LogError Unit

/-- The verifier-aggregation block at the top of `Request::service`: the
accumulator starts as `Err(VerifyError::NotAllowed)` and is folded with
`Result::or` over every verifier's result. -/
def verifyAccum (verifiers : List Verifier) (cur req : Permission)
    (ex : Executable) : VerifyResult :=
  verifiers.foldl
    (fun res v => exceptOr res (v cur req ex))
    (Except.error VerifyError.notAllowed)

/-- `Request::service` from `request.rs`, with its observable events made
explicit.  The result is `none` exactly when control was irrevocably
transferred to the target program (the Rust function did not return). -/
def Request.service (rq : Request) : Option RequestError × List Event :=
  let verify_res :=
    verifyAccum rq.verifiers rq.current_permissions rq.requested_permissions
      rq.executable
  match rq.logger rq.executable rq.current_permissions
      rq.requested_permissions verify_res with
  | Except.error e =>
      (some (RequestError.log e),
       [Event.logged rq.executable rq.current_permissions
          rq.requested_permissions verify_res])
  | Except.ok _ =>
      match verify_res with
      | Except.error e =>
          (some (RequestError.verify e),
           [Event.logged rq.executable rq.current_permissions
              rq.requested_permissions verify_res])
      | Except.ok _ =>
          ((rq.runner rq.requested_permissions rq.executable).map
             RequestError.run,
           [Event.logged rq.executable rq.current_permissions
              rq.requested_permissions verify_res,
            Event.ran rq.requested_permissions rq.executable])

lemma exceptOr_isAllow (a : VerifyResult) (b : VerifyResult) :
    isAllow (exceptOr a b) = (isAllow a || isAllow b) := by
  cases a <;> simp [exceptOr, isAllow]

lemma verifyAccum_foldl_isAllow (verifiers : List Verifier)
    (cur req : Permission) (ex : Executable) (init : VerifyResult) :
    isAllow (verifiers.foldl (fun res v => exceptOr res (v cur req ex)) init)
      = (isAllow init || verifiers.any (fun v => isAllow (v cur req ex))) := by
  induction verifiers generalizing init with
  | nil => simp
  | cons v t ih =>
      simp only [List.foldl_cons, List.any_cons, ih, exceptOr_isAllow,
        Bool.or_assoc]

lemma verifyAccum_isAllow (verifiers : List Verifier)
    (cur req : Permission) (ex : Executable) :
    isAllow (verifyAccum verifiers cur req ex)
      = verifiers.any (fun v => isAllow (v cur req ex)) := by
  rw [verifyAccum, verifyAccum_foldl_isAllow]
  simp [isAllow]

/-! ## The sudoers policy model

Types from `permission/verify/sudoers_type.rs` (the JSON schema) and
`permission/verify/parsed_sudoers_type.rs` (the id-resolved form).
Name-service lookups (`users::get_user_by_name`, `get_group_by_name`,
wrapped by `get_uid_from_username` / `get_gid_from_groupname`) are
modelled as function parameters `uidOf gidOf : String → Option Nat`.
The alias table (`HashMap<String, Vec<User>>`) is modelled as a function
`String → Option (List User)`; the code indexes it with `[..]`, which
panics when the key is absent, so alias processing is `Option`-valued. -/

/-- Modelled from the spec: the wildcard constant `ALL` is imported as
`super::ALL` by `parsed_sudoers_type.rs` but its definition is not under
`src/`; the spec fixes it as the literal token `"ALL"`. -/
def ALL : String := "ALL"

/-- A principal reference, from `sudoers_type.rs` (`enum User`). -/
inductive User
  | username (s : String)
  | usergroup (s : String)
  | useralias (s : String)
deriving DecidableEq

/-- A rule option, from `sudoers_type.rs` (`enum Option`). -/
inductive SudoOption
  | setenv (b : Bool)
  | authenticate (b : Bool)
deriving DecidableEq

/-- A `CString` as deserialised by serde: a NUL-free byte string, which
either is valid UTF-8 — represented by its decoded text, since UTF-8
decoding is a bijection between valid byte strings and strings — or is
not, represented by its raw bytes.  `serde_json` accepts a JSON byte
array for a `CString`, so the invalid case is reachable from a
schema-valid document. -/
inductive CStr
  | utf8 (s : String)
  | invalid (bytes : List Nat)
deriving DecidableEq

/-- `CStr::to_str`: succeeds exactly on valid UTF-8. -/
def CStr.toStr : CStr → Option String
  | CStr.utf8 s => some s
  | CStr.invalid _ => none

/-- A command entry, from `sudoers_type.rs` (`enum Command`): a
`CString` path. -/
inductive Command
  | cmdPath (p : CStr)
deriving DecidableEq

/-- A command spec, from `sudoers_type.rs` (`struct CmdSpec`). -/
structure CmdSpec where
  run_as_users : List User
  run_as_groups : List User
  options : List SudoOption
  commands : List Command
deriving DecidableEq

/-- A user spec (one sudoers entry), from `sudoers_type.rs`
(`struct UserSpec`).  Hosts carry only a name and are unused by the
evaluation core. -/
structure UserSpec where
  user_list : List User
  host_list : List String
  cmd_specs : List CmdSpec
deriving DecidableEq

/-- The decoded sudoers document, from `sudoers_type.rs`
(`struct Sudoers`). -/
structure Sudoers where
  user_aliases : String → Option (List User)
  user_specs : List UserSpec

/-- A resolved allowed-command, from `parsed_sudoers_type.rs`
(`struct AllowedCmd`). -/
structure AllowedCmd where
  users : Finset Nat
  allow_all_users : Bool
  groups : Finset Nat
  allow_all_groups : Bool
  paths : Finset CStr
  allow_all_cmds : Bool
  options : List SudoOption
deriving DecidableEq

/-- `AllowedCmd::new`. -/
def AllowedCmd.new : AllowedCmd :=
  { users := ∅, allow_all_users := false, groups := ∅,
    allow_all_groups := false, paths := ∅, allow_all_cmds := false,
    options := [] }

/-- `AllowedCmd::is_relevant`: whether this allowed-command's run-as
sets match the requested permission. -/
def AllowedCmd.is_relevant (ac : AllowedCmd) (req_perm : Permission) : Bool :=
  decide (req_perm.uid ∈ ac.users)
    || decide (req_perm.primary_gid ∈ ac.groups)
    || !(decide (Disjoint ac.groups req_perm.secondary_gids))
    || ac.allow_all_users
    || ac.allow_all_groups

/-- A resolved rule, from `parsed_sudoers_type.rs` (`struct Rule`). -/
structure Rule where
  users : Finset Nat
  allow_all_users : Bool
  groups : Finset Nat
  allow_all_groups : Bool
  allowed_cmds : List AllowedCmd
  allow_all_cmds : Bool
deriving DecidableEq

/-- `Rule::new`. -/
def Rule.new : Rule :=
  { users := ∅, allow_all_users := false, groups := ∅,
    allow_all_groups := false, allowed_cmds := [], allow_all_cmds := false }

/-- `Rule::is_relevant`: whether the rule's subject sets match the
current permission. -/
def Rule.is_relevant (rule : Rule) (curr_perm : Permission) : Bool :=
  decide (curr_perm.uid ∈ rule.users)
    || decide (curr_perm.primary_gid ∈ rule.groups)
    || !(decide (Disjoint rule.groups curr_perm.secondary_gids))
    || rule.allow_all_users
    || rule.allow_all_groups

/-- The body of the alias-expansion loop in `Rule::from_userspec`: a
`Username` member of the alias is either the wildcard or resolved with
`get_uid_from_username`; non-`Username` members are skipped. -/
def aliasMemberStep (uidOf : String → Option Nat) (rule : Rule)
    (member : User) : Rule :=
  match member with
  | User.username x =>
      if x = ALL then { rule with allow_all_users := true }
      else
        match uidOf x with
        | some uid => { rule with users := insert uid rule.users }
        | none => rule
  | _ => rule

/-- One iteration of the `user_list` loop of `Rule::from_userspec`.
The `Useralias` arm indexes the alias table, which panics (here: `none`)
when the alias is undefined. -/
def subjectStep (uidOf gidOf : String → Option Nat)
    (useraliases : String → Option (List User)) (rule : Rule)
    (user : User) : Option Rule :=
  match user with
  | User.username x =>
      some <|
        if x = ALL then { rule with allow_all_users := true }
        else
          match uidOf x with
          | some uid => { rule with users := insert uid rule.users }
          | none => rule
  | User.usergroup x =>
      some <|
        if x = ALL then { rule with allow_all_groups := true }
        else
          match gidOf x with
          | some gid => { rule with groups := insert gid rule.groups }
          | none => rule
  | User.useralias x =>
      (useraliases x).map (fun members => members.foldl (aliasMemberStep uidOf) rule)

/-- One iteration of the `run_as_users` loop of `Rule::from_userspec`:
only `Username` entries are examined. -/
def runasUserStep (uidOf : String → Option Nat) (ac : AllowedCmd)
    (user : User) : AllowedCmd :=
  match user with
  | User.username x =>
      if x = ALL then { ac with allow_all_users := true }
      else
        match uidOf x with
        | some uid => { ac with users := insert uid ac.users }
        | none => ac
  | _ => ac

/-- One iteration of the `run_as_groups` loop of `Rule::from_userspec`:
only `Usergroup` entries are examined.  NOTE: the source sets
`allow_all_users` (not `allow_all_groups`) when the group name is the
wildcard; the embedding reproduces that line as written. -/
def runasGroupStep (gidOf : String → Option Nat) (ac : AllowedCmd)
    (user : User) : AllowedCmd :=
  match user with
  | User.usergroup x =>
      if x = ALL then { ac with allow_all_users := true }
      else
        match gidOf x with
        | some gid => { ac with groups := insert gid ac.groups }
        | none => ac
  | _ => ac

/-- One iteration of the `commands` loop of `Rule::from_userspec`:
`path.to_str().unwrap()` panics — `none` — when the path is not valid
UTF-8; otherwise the text is compared with the wildcard and the raw
path is inserted. -/
def commandStep (ac : AllowedCmd) (c : Command) : Option AllowedCmd :=
  match c with
  | Command.cmdPath p =>
      (CStr.toStr p).map fun s =>
        if s = ALL then { ac with allow_all_cmds := true }
        else { ac with paths := insert p ac.paths }

/-- The `cmd_specs` loop body of `Rule::from_userspec`, building one
`AllowedCmd` from one `CmdSpec`; `none` when a command path's
`to_str().unwrap()` panics. -/
def AllowedCmd.from_cmdspec (uidOf gidOf : String → Option Nat)
    (cs : CmdSpec) : Option AllowedCmd :=
  let ac := AllowedCmd.new
  let ac := cs.run_as_users.foldl (runasUserStep uidOf) ac
  let ac := cs.run_as_groups.foldl (runasGroupStep gidOf) ac
  let ac := { ac with options := ac.options ++ cs.options }
  cs.commands.foldlM commandStep ac

/-- `Rule::from_userspec` from `parsed_sudoers_type.rs`: resolve the
subject list (panicking — `none` — on an undefined alias), then build one
`AllowedCmd` per `CmdSpec` (panicking on a non-UTF-8 command path). -/
def Rule.from_userspec (uidOf gidOf : String → Option Nat)
    (useraliases : String → Option (List User))
    (userspec : UserSpec) : Option Rule :=
  (userspec.user_list.foldlM (subjectStep uidOf gidOf useraliases) Rule.new).bind
    fun rule =>
      userspec.cmd_specs.foldlM
        (fun r cs =>
          (AllowedCmd.from_cmdspec uidOf gidOf cs).map fun ac =>
            { r with allowed_cmds := r.allowed_cmds ++ [ac] })
        rule

/-- The id-resolved policy, from `parsed_sudoers_type.rs`
(`struct ParsedSudoers`).  `retrieve_ids` never fills `user_aliases`. -/
structure ParsedSudoers where
  rules : List Rule
  user_aliases : String → Option (List Nat)

/-- `Sudoers::retrieve_ids` from `sudoers_type.rs`: one rule per user
spec, `none` when any spec's subject list references an undefined
alias. -/
def Sudoers.retrieve_ids (uidOf gidOf : String → Option Nat)
    (s : Sudoers) : Option ParsedSudoers :=
  (s.user_specs.mapM (Rule.from_userspec uidOf gidOf s.user_aliases)).map
    fun rules => { rules := rules, user_aliases := fun _ => none }

/-! ## The kernel's sudoers verifier factory (`sudoers.rs`) -/

/-- The intermediate `struct Policy` of `sudoers.rs`, accumulated from a
user spec and then discarded. -/
structure Policy where
  users : List Nat
  groups : List Nat
  commands : List String
deriving DecidableEq

/-- The `user_list` loop of `from_sudoers` in `sudoers.rs`.  Note that,
as written in the source, `ALL` receives no special handling here, and a
`Username` member of an alias is resolved with `get_group_by_name` and
pushed onto `policy.groups`. -/
def policyStep (uidOf gidOf : String → Option Nat)
    (useraliases : String → Option (List User)) (policy : Policy)
    (user : User) : Option Policy :=
  match user with
  | User.username x =>
      some <|
        match uidOf x with
        | some uid => { policy with users := policy.users ++ [uid] }
        | none => policy
  | User.usergroup x =>
      some <|
        match gidOf x with
        | some gid => { policy with groups := policy.groups ++ [gid] }
        | none => policy
  | User.useralias x =>
      (useraliases x).map fun members =>
        members.foldl
          (fun p m =>
            match m with
            | User.username y =>
                match gidOf y with
                | some gid => { p with groups := p.groups ++ [gid] }
                | none => p
            | _ => p)
          policy

/-- `from_sudoers` from `sudoers.rs`, the kernel's actual verifier
factory.  The decode step (`File::open(..).unwrap()` followed by
`serde_json::from_reader(..).unwrap()`) is modelled by the `Option`
parameter `decoded`; both `unwrap`s and the alias-table index panic are
the `none` result.  For each user spec a `Policy` is built and then a
closure ignoring it — `|curr_perm, req_perm, exe| Ok(())` — is pushed. -/
def from_sudoers (uidOf gidOf : String → Option Nat)
    (decoded : Option Sudoers) : Option (List Verifier) :=
  decoded.bind fun u =>
    u.user_specs.foldlM
      (fun verifiers user_spec =>
        ((user_spec.user_list.foldlM
            (policyStep uidOf gidOf u.user_aliases)
            { users := [], groups := [], commands := [] }).map
          fun _policy =>
            verifiers ++ [fun _ _ _ => (Except.ok () : VerifyResult)]))
      []

/-! ## The identity-drop / exec sequence (`executable/run/exec.rs`)

The four syscalls (`setgroups`, `setgid`, `setuid`, `execve`) are
modelled by an oracle `SysEnv` giving each call's outcome (`none` =
success, `some errno` = failure; for `execve`, success means the process
image was replaced and the function does not return).  `exec` returns
the ordered trace of syscalls it issued together with its outcome. -/

/-- Outcomes of the syscalls used by `exec`, as an oracle. -/
structure SysEnv where
  setgroups_r : List Nat → Option Errno
  setgid_r : Nat → Option Errno
  setuid_r : Nat → Option Errno
  execve_r : String → List String → List String → Option Errno

/-- A syscall issued by `exec`, with the arguments it was passed. -/
inductive SysCall
  | setgroups (gids : List Nat)
  | setgid (gid : Nat)
  | setuid (uid : Nat)
  | execve (path : String) (args : List String) (env : List String)
deriving DecidableEq

/-- The group-list construction at the top of `exec`: clone the
requested secondary-gid set, insert the primary gid, convert to a vector
and sort by raw value. -/
def mkGroupVec (perm : Permission) : List Nat :=
  (insert perm.primary_gid perm.secondary_gids).sort (· ≤ ·)

/-- `exec` from `executable/run/exec.rs`: install the full group list,
set the primary gid, set the uid, then `execve` with an empty
environment, failing out with the step's error variant at the first
failing syscall. -/
def exec (env : SysEnv) (perm : Permission) (execable : Executable) :
    List SysCall × Option RunError :=
  let new_sgid_vec := mkGroupVec perm
  match env.setgroups_r new_sgid_vec with
  | some en =>
      ([SysCall.setgroups new_sgid_vec], some (RunError.SetSecondaryGID en))
  | none =>
      match env.setgid_r perm.primary_gid with
      | some en =>
          ([SysCall.setgroups new_sgid_vec, SysCall.setgid perm.primary_gid],
           some (RunError.SetPrimaryGID en))
      | none =>
          match env.setuid_r perm.uid with
          | some en =>
              ([SysCall.setgroups new_sgid_vec,
                SysCall.setgid perm.primary_gid, SysCall.setuid perm.uid],
               some (RunError.SetUID en))
          | none =>
              match env.execve_r execable.path execable.args [] with
              | some en =>
                  ([SysCall.setgroups new_sgid_vec,
                    SysCall.setgid perm.primary_gid,
                    SysCall.setuid perm.uid,
                    SysCall.execve execable.path execable.args []],
                   some (RunError.Execute en))
              | none =>
                  ([SysCall.setgroups new_sgid_vec,
                    SysCall.setgid perm.primary_gid,
                    SysCall.setuid perm.uid,
                    SysCall.execve execable.path execable.args []],
                   none)

/-! ## Concrete sample values used by witnesses -/

/-- A sample executable. -/
def sampleExe : Executable := { path := "/bin/ls", args := ["ls", "-l"] }

/-- A sample unprivileged permission set. -/
def samplePerm : Permission :=
  { uid := 1000, primary_gid := 100, secondary_gids := {4, 24} }

/-- The root permission set. -/
def rootPerm : Permission := { uid := 0, primary_gid := 0, secondary_gids := ∅ }

/-- A verifier that always denies. -/
def denyVerifier : Verifier := fun _ _ _ => Except.error VerifyError.notAllowed

/-- A verifier that always allows. -/
def allowVerifier : Verifier := fun _ _ _ => Except.ok ()

/-- A logger that always succeeds. -/
def okLogger :
    Executable → Permission → Permission → VerifyResult → Except LogError Unit :=
  fun _ _ _ _ => Except.ok ()

/-- A logger that always fails with an I/O error. -/
def failLogger :
    Executable → Permission → Permission → VerifyResult → Except LogError Unit :=
  fun _ _ _ _ => Except.error LogError.ioError

/-- A runner whose `execve` always succeeds. -/
def okRunner : Permission → Executable → Option RunError := fun _ _ => none

/-- A request with a single denying verifier. -/
def denyReq : Request :=
  { executable := sampleExe, current_permissions := samplePerm,
    requested_permissions := rootPerm, verifiers := [denyVerifier],
    runner := okRunner, logger := okLogger }

/-- An otherwise-allowed request whose logger fails. -/
def failLogReq : Request :=
  { executable := sampleExe, current_permissions := samplePerm,
    requested_permissions := rootPerm, verifiers := [allowVerifier],
    runner := okRunner, logger := failLogger }

/-- A syscall oracle where every call succeeds. -/
def allOkEnv : SysEnv :=
  { setgroups_r := fun _ => none, setgid_r := fun _ => none,
    setuid_r := fun _ => none, execve_r := fun _ _ _ => none }

/-- A syscall oracle where `setuid` fails with EPERM (errno 1). -/
def setuidFailEnv : SysEnv :=
  { setgroups_r := fun _ => none, setgid_r := fun _ => none,
    setuid_r := fun _ => some 1, execve_r := fun _ _ _ => none }

/-! ## Claims -/

/-- C1: the aggregate verify outcome of `Request::service` is allow iff
at least one verifier returns allow; the accumulator starts as
`NotAllowed`, so an empty verifier list yields deny; and whenever the
aggregate outcome is deny, the runner is never invoked. -/
theorem C1_default_deny_or (rq : Request) :
    (isAllow (verifyAccum rq.verifiers rq.current_permissions
          rq.requested_permissions rq.executable) = true
      ↔ ∃ v ∈ rq.verifiers,
          isAllow (v rq.current_permissions rq.requested_permissions
            rq.executable) = true)
    ∧ (rq.verifiers = [] →
        verifyAccum rq.verifiers rq.current_permissions
            rq.requested_permissions rq.executable
          = Except.error VerifyError.notAllowed)
    ∧ (isAllow (verifyAccum rq.verifiers rq.current_permissions
          rq.requested_permissions rq.executable) = false →
        (rq.service.2.all fun ev => !ev.isRan) = true) := by
  refine ⟨?_, ?_, ?_⟩
  · rw [verifyAccum_isAllow, List.any_eq_true]
  · intro h
    rw [h]
    rfl
  · intro h
    cases hl : rq.logger rq.executable rq.current_permissions
        rq.requested_permissions
        (verifyAccum rq.verifiers rq.current_permissions
          rq.requested_permissions rq.executable) with
    | error e =>
        have hs : rq.service.2
            = [Event.logged rq.executable rq.current_permissions
                rq.requested_permissions
                (verifyAccum rq.verifiers rq.current_permissions
                  rq.requested_permissions rq.executable)] := by
          simp only [Request.service]
          rw [hl]
        rw [hs]
        rfl
    | ok u =>
        cases u
        cases hv : verifyAccum rq.verifiers rq.current_permissions
            rq.requested_permissions rq.executable with
        | error e =>
            have hs : rq.service.2
                = [Event.logged rq.executable rq.current_permissions
                    rq.requested_permissions (Except.error e)] := by
              simp only [Request.service]
              rw [hl, hv]
            rw [hs]
            rfl
        | ok v =>
            rw [hv] at h
            exact absurd h (by simp [isAllow])

/-- C1 witness: a request with one denying verifier is denied and its
runner is never invoked. -/
theorem C1_default_deny_or_witness :
    (Request.service denyReq).2.all (fun ev => !ev.isRan) = true :=
  (C1_default_deny_or denyReq).2.2 (by rfl)

/-- C3: servicing a request logs exactly once, with the executable, the
current and requested permissions and the aggregate verify outcome; the
log event comes before any runner invocation; a failing logger yields a
`Log` error and the runner is never invoked; and a `Log` error is
distinct from a `Verify` error. -/
theorem C3_audit_before_run (rq : Request) :
    ((rq.service.2.filter Event.isLogged)
        = [Event.logged rq.executable rq.current_permissions
            rq.requested_permissions
            (verifyAccum rq.verifiers rq.current_permissions
              rq.requested_permissions rq.executable)])
    ∧ (∃ rest, rq.service.2
        = Event.logged rq.executable rq.current_permissions
            rq.requested_permissions
            (verifyAccum rq.verifiers rq.current_permissions
              rq.requested_permissions rq.executable) :: rest)
    ∧ (∀ e, rq.logger rq.executable rq.current_permissions
          rq.requested_permissions
          (verifyAccum rq.verifiers rq.current_permissions
            rq.requested_permissions rq.executable) = Except.error e →
        rq.service.1 = some (RequestError.log e)
          ∧ (rq.service.2.all fun ev => !ev.isRan) = true)
    ∧ (∀ e e', RequestError.log e ≠ RequestError.verify e') := by
  cases hl : rq.logger rq.executable rq.current_permissions
      rq.requested_permissions
      (verifyAccum rq.verifiers rq.current_permissions
        rq.requested_permissions rq.executable) with
  | error e =>
      have hs : rq.service
          = (some (RequestError.log e),
             [Event.logged rq.executable rq.current_permissions
                rq.requested_permissions
                (verifyAccum rq.verifiers rq.current_permissions
                  rq.requested_permissions rq.executable)]) := by
        simp only [Request.service]
        rw [hl]
      refine ⟨by rw [hs]; rfl, ⟨[], by rw [hs]⟩, ?_,
        fun e e' h => RequestError.noConfusion h⟩
      intro e' he'
      injection he' with h
      subst h
      rw [hs]
      exact ⟨rfl, rfl⟩
  | ok u =>
      cases u
      cases hv : verifyAccum rq.verifiers rq.current_permissions
          rq.requested_permissions rq.executable with
      | error e =>
          have hs : rq.service
              = (some (RequestError.verify e),
                 [Event.logged rq.executable rq.current_permissions
                    rq.requested_permissions (Except.error e)]) := by
            simp only [Request.service]
            rw [hl, hv]
          refine ⟨by rw [hs]; rfl, ⟨[], by rw [hs]⟩, ?_,
            fun e e' h => RequestError.noConfusion h⟩
          intro e' he'
          exact Except.noConfusion he'
      | ok v =>
          cases v
          have hs : rq.service
              = ((rq.runner rq.requested_permissions rq.executable).map
                   RequestError.run,
                 [Event.logged rq.executable rq.current_permissions
                    rq.requested_permissions (Except.ok ()),
                  Event.ran rq.requested_permissions rq.executable]) := by
            simp only [Request.service]
            rw [hl, hv]
          refine ⟨by rw [hs]; rfl,
            ⟨[Event.ran rq.requested_permissions rq.executable],
             by rw [hs]⟩, ?_,
            fun e e' h => RequestError.noConfusion h⟩
          intro e' he'
          exact Except.noConfusion he'

/-- C3 witness: an otherwise-allowed request whose logger fails results
in a `Log` error and never invokes the runner. -/
theorem C3_audit_before_run_witness :
    (Request.service failLogReq).1 = some (RequestError.log LogError.ioError)
      ∧ ((Request.service failLogReq).2.all fun ev => !ev.isRan) = true :=
  (C3_audit_before_run failLogReq).2.2.1 LogError.ioError (by rfl)

/-- C4: `exec` issues set-group-list, set-primary-gid, set-uid and
`execve` in that fixed order; a later step is attempted only when every
earlier step succeeded; a failing step yields the error variant tagging
exactly that step; and `execve` receives an empty environment vector. -/
theorem C4_transition_order (env : SysEnv) (perm : Permission)
    (ex : Executable) :
    (∀ en, env.setgroups_r (mkGroupVec perm) = some en →
        exec env perm ex
          = ([SysCall.setgroups (mkGroupVec perm)],
             some (RunError.SetSecondaryGID en)))
    ∧ (∀ en, env.setgroups_r (mkGroupVec perm) = none →
        env.setgid_r perm.primary_gid = some en →
        exec env perm ex
          = ([SysCall.setgroups (mkGroupVec perm),
              SysCall.setgid perm.primary_gid],
             some (RunError.SetPrimaryGID en)))
    ∧ (∀ en, env.setgroups_r (mkGroupVec perm) = none →
        env.setgid_r perm.primary_gid = none →
        env.setuid_r perm.uid = some en →
        exec env perm ex
          = ([SysCall.setgroups (mkGroupVec perm),
              SysCall.setgid perm.primary_gid, SysCall.setuid perm.uid],
             some (RunError.SetUID en)))
    ∧ (∀ en, env.setgroups_r (mkGroupVec perm) = none →
        env.setgid_r perm.primary_gid = none →
        env.setuid_r perm.uid = none →
        env.execve_r ex.path ex.args [] = some en →
        exec env perm ex
          = ([SysCall.setgroups (mkGroupVec perm),
              SysCall.setgid perm.primary_gid, SysCall.setuid perm.uid,
              SysCall.execve ex.path ex.args []],
             some (RunError.Execute en)))
    ∧ (env.setgroups_r (mkGroupVec perm) = none →
        env.setgid_r perm.primary_gid = none →
        env.setuid_r perm.uid = none →
        env.execve_r ex.path ex.args [] = none →
        exec env perm ex
          = ([SysCall.setgroups (mkGroupVec perm),
              SysCall.setgid perm.primary_gid, SysCall.setuid perm.uid,
              SysCall.execve ex.path ex.args []],
             none)) := by
  refine ⟨?_, ?_, ?_, ?_, ?_⟩
  · intro en h1
    simp [exec, h1]
  · intro en h1 h2
    simp [exec, h1, h2]
  · intro en h1 h2 h3
    simp [exec, h1, h2, h3]
  · intro en h1 h2 h3 h4
    simp [exec, h1, h2, h3, h4]
  · intro h1 h2 h3 h4
    simp [exec, h1, h2, h3, h4]

/-- C4 witness: under an oracle where `setuid` fails with errno 1, the
trace stops right after `setuid` and the outcome is `SetUID 1`. -/
theorem C4_transition_order_witness :
    exec setuidFailEnv rootPerm sampleExe
      = ([SysCall.setgroups (mkGroupVec rootPerm), SysCall.setgid 0,
          SysCall.setuid 0], some (RunError.SetUID 1)) :=
  (C4_transition_order setuidFailEnv rootPerm sampleExe).2.2.1 1 rfl rfl rfl

/-- C9: the group list installed by the first syscall of `exec` is the
duplicate-free, ascending sort of the requested secondary gids unioned
with the requested primary gid, and the later syscalls still receive the
untouched original uid and primary gid of the requested permission. -/
theorem C9_group_list_frame (env : SysEnv) (perm : Permission)
    (ex : Executable) :
    ((exec env perm ex).1.head?
        = some (SysCall.setgroups (mkGroupVec perm)))
    ∧ List.Sorted (· ≤ ·) (mkGroupVec perm)
    ∧ (mkGroupVec perm).Nodup
    ∧ (∀ g, g ∈ mkGroupVec perm
        ↔ g ∈ perm.secondary_gids ∨ g = perm.primary_gid)
    ∧ ((exec env perm ex).1.all fun c =>
        match c with
        | SysCall.setgid g => g == perm.primary_gid
        | SysCall.setuid u => u == perm.uid
        | _ => true) = true := by
  refine ⟨?_, ?_, ?_, ?_, ?_⟩
  · cases h1 : env.setgroups_r (mkGroupVec perm) <;>
      cases h2 : env.setgid_r perm.primary_gid <;>
      cases h3 : env.setuid_r perm.uid <;>
      cases h4 : env.execve_r ex.path ex.args [] <;>
      simp [exec, h1, h2, h3, h4]
  · exact Finset.sort_sorted _ _
  · exact Finset.sort_nodup _ _
  · intro g
    rw [mkGroupVec, Finset.mem_sort, Finset.mem_insert]
    tauto
  · cases h1 : env.setgroups_r (mkGroupVec perm) <;>
      cases h2 : env.setgid_r perm.primary_gid <;>
      cases h3 : env.setuid_r perm.uid <;>
      cases h4 : env.execve_r ex.path ex.args [] <;>
      simp [exec, h1, h2, h3, h4]

/-- C9 witness: concrete instantiation on an all-success oracle — the
primary gid 100 is a member of the installed group list of
`samplePerm` even though it is not among the secondary gids, and the
list is sorted. -/
theorem C9_group_list_frame_witness :
    (100 ∈ mkGroupVec samplePerm
        ↔ 100 ∈ samplePerm.secondary_gids ∨ 100 = samplePerm.primary_gid)
      ∧ List.Sorted (· ≤ ·) (mkGroupVec samplePerm) :=
  ⟨(C9_group_list_frame allOkEnv samplePerm sampleExe).2.2.2.1 100,
   (C9_group_list_frame allOkEnv samplePerm sampleExe).2.1⟩

/-- The closure pushed by `from_sudoers` for every user spec:
`|curr_perm, req_perm, exe| Ok(())`. -/
def constOkVerifier : Verifier := fun _ _ _ => Except.ok ()

/-- A name-service oracle that resolves nothing. -/
def lookupNone : String → Option Nat := fun _ => none

/-- A name-service oracle resolving only the user `nobody` to uid 999. -/
def nobodyLookup : String → Option Nat :=
  fun s => if s = "nobody" then some 999 else none

/-- An empty alias table. -/
def noAliases : String → Option (List User) := fun _ => none

/-- A user spec whose subject is the user `nobody` and which allows no
commands at all. -/
def nobodySpec : UserSpec :=
  { user_list := [User.username "nobody"], host_list := [], cmd_specs := [] }

/-- A sudoers document containing only `nobodySpec`. -/
def nobodySudoers : Sudoers :=
  { user_aliases := noAliases, user_specs := [nobodySpec] }

/-- A command spec whose run-as-group list is the wildcard. -/
def wildcardRunasCmdSpec : CmdSpec :=
  { run_as_users := [], run_as_groups := [User.usergroup "ALL"],
    options := [], commands := [Command.cmdPath (CStr.utf8 "/bin/ls")] }

/-- A user spec with a wildcard subject and `wildcardRunasCmdSpec`. -/
def wildcardRunasSpec : UserSpec :=
  { user_list := [User.username "ALL"], host_list := [],
    cmd_specs := [wildcardRunasCmdSpec] }

lemma from_sudoers_loop_const (uidOf gidOf : String → Option Nat)
    (aliases : String → Option (List User)) (specs : List UserSpec)
    (acc vs : List Verifier)
    (hacc : ∀ v ∈ acc, ∀ cur req ex, v cur req ex = Except.ok ())
    (h : specs.foldlM
        (fun verifiers user_spec =>
          ((user_spec.user_list.foldlM
              (policyStep uidOf gidOf aliases)
              { users := [], groups := [], commands := [] }).map
            fun _policy =>
              verifiers ++ [fun _ _ _ => (Except.ok () : VerifyResult)]))
        acc = some vs) :
    ∀ v ∈ vs, ∀ cur req ex, v cur req ex = Except.ok () := by
  induction specs generalizing acc with
  | nil =>
      rw [List.foldlM_nil] at h
      cases h
      exact hacc
  | cons s t ih =>
      rw [List.foldlM_cons] at h
      cases hp : (s.user_list.foldlM (policyStep uidOf gidOf aliases)
          { users := [], groups := [], commands := [] }) with
      | none => rw [hp] at h; cases h
      | some p =>
          rw [hp] at h
          refine ih (acc ++ [fun _ _ _ => (Except.ok () : VerifyResult)]) ?_ h
          intro v hv cur req ex
          rcases List.mem_append.mp hv with hv' | hv'
          · exact hacc v hv' cur req ex
          · rcases List.mem_singleton.mp hv' with rfl
            rfl

/-- C10: every verifier returned by `from_sudoers` is the constant
closure returning `Ok`; the parsed policy has no effect on the
verification outcome. -/
theorem C10_verifiers_always_allow (uidOf gidOf : String → Option Nat)
    (decoded : Option Sudoers) (vs : List Verifier)
    (h : from_sudoers uidOf gidOf decoded = some vs) :
    ∀ v ∈ vs, ∀ cur req ex, v cur req ex = Except.ok () := by
  cases decoded with
  | none => cases h
  | some u =>
      exact from_sudoers_loop_const uidOf gidOf u.user_aliases u.user_specs
        [] vs (by intro v hv; cases hv) h

/-- C10 witness: the verifier built from `nobodySudoers` allows a root
request from `samplePerm`. -/
theorem C10_verifiers_always_allow_witness :
    constOkVerifier samplePerm rootPerm sampleExe = Except.ok () :=
  C10_verifiers_always_allow nobodyLookup lookupNone (some nobodySudoers)
    [constOkVerifier] (by rfl) constOkVerifier (by simp) samplePerm rootPerm
    sampleExe

/-- C2, evaluated at a failing input: the only rule of `nobodySudoers`
is irrelevant to the current identity `rootPerm` (uid 0, while the
subject set is `{999}`) and has no allowed-command entries, so by the
claim the request must be denied; yet the verifier `from_sudoers`
builds for it returns allow, for every input. -/
theorem C2_rule_semantics_not_enforced :
    from_sudoers nobodyLookup lookupNone (some nobodySudoers)
        = some [constOkVerifier]
      ∧ (Rule.from_userspec nobodyLookup lookupNone noAliases nobodySpec).map
          (fun r => (r.is_relevant rootPerm, r.allowed_cmds.length))
        = some (false, 0)
      ∧ constOkVerifier rootPerm rootPerm sampleExe = Except.ok () := by
  refine ⟨rfl, by decide, rfl⟩

/-- C5, evaluated at the failing input: the wildcard in the subject slot
sets the subject all-users flag as claimed, but a run-as-group entry
`usergroup "ALL"` sets the `allow_all_users` flag of the allowed-command
and leaves its `allow_all_groups` flag false, not the group slot's
all-flag. -/
theorem C5_runas_group_wrong_flag :
    (Rule.from_userspec lookupNone lookupNone noAliases wildcardRunasSpec).map
        (fun r => (r.allow_all_users,
          r.allowed_cmds.map fun ac => (ac.allow_all_users, ac.allow_all_groups)))
      = some (true, [(true, false)]) := by
  decide

/-! ## Load-failure characterisation (C7) -/

/-- Whether a subject list references an alias that is absent from the
alias table — the exact situation in which the `HashMap` index of the
`Useralias` arm panics. -/
def referencesMissingAlias (aliases : String → Option (List User))
    (users : List User) : Bool :=
  users.any fun u =>
    match u with
    | User.useralias a => (aliases a).isNone
    | _ => false

lemma policy_foldlM_eq_none (uidOf gidOf : String → Option Nat)
    (aliases : String → Option (List User)) (users : List User) (p : Policy) :
    (users.foldlM (policyStep uidOf gidOf aliases) p = none)
      ↔ referencesMissingAlias aliases users = true := by
  induction users generalizing p with
  | nil => simp [referencesMissingAlias]
  | cons u t ih =>
      rw [List.foldlM_cons]
      cases u with
      | username x =>
          simp only [policyStep, Option.bind_eq_bind, Option.some_bind]
          rw [ih]
          simp [referencesMissingAlias]
      | usergroup x =>
          simp only [policyStep, Option.bind_eq_bind, Option.some_bind]
          rw [ih]
          simp [referencesMissingAlias]
      | useralias a =>
          cases ha : aliases a with
          | none => simp [policyStep, ha, referencesMissingAlias]
          | some members =>
              simp only [policyStep, ha, Option.map_some', Option.bind_eq_bind, Option.some_bind]
              rw [ih]
              simp [referencesMissingAlias, ha]

lemma subject_foldlM_eq_none (uidOf gidOf : String → Option Nat)
    (aliases : String → Option (List User)) (users : List User) (r : Rule) :
    (users.foldlM (subjectStep uidOf gidOf aliases) r = none)
      ↔ referencesMissingAlias aliases users = true := by
  induction users generalizing r with
  | nil => simp [referencesMissingAlias]
  | cons u t ih =>
      rw [List.foldlM_cons]
      cases u with
      | username x =>
          simp only [subjectStep, Option.bind_eq_bind, Option.some_bind]
          rw [ih]
          simp [referencesMissingAlias]
      | usergroup x =>
          simp only [subjectStep, Option.bind_eq_bind, Option.some_bind]
          rw [ih]
          simp [referencesMissingAlias]
      | useralias a =>
          cases ha : aliases a with
          | none => simp [subjectStep, ha, referencesMissingAlias]
          | some members =>
              simp only [subjectStep, ha, Option.map_some', Option.bind_eq_bind, Option.some_bind]
              rw [ih]
              simp [referencesMissingAlias, ha]

/-- Whether a command entry's path is not valid UTF-8 — the situation
in which `path.to_str().unwrap()` of `Rule::from_userspec` panics. -/
def cmdPathInvalid : Command → Bool
  | Command.cmdPath p => (CStr.toStr p).isNone

/-- Whether a command spec contains a non-UTF-8 command path. -/
def hasInvalidCmdPath (cs : CmdSpec) : Bool :=
  cs.commands.any cmdPathInvalid

lemma command_foldlM_eq_none (cmds : List Command) (ac : AllowedCmd) :
    (cmds.foldlM commandStep ac = none) ↔ cmds.any cmdPathInvalid = true := by
  induction cmds generalizing ac with
  | nil => simp
  | cons c t ih =>
      rw [List.foldlM_cons]
      rcases c with ⟨p⟩
      cases p with
      | utf8 s =>
          simp only [commandStep, CStr.toStr, Option.map_some',
            Option.bind_eq_bind, Option.some_bind]
          rw [ih]
          simp [cmdPathInvalid, CStr.toStr]
      | invalid bs =>
          simp [commandStep, CStr.toStr, cmdPathInvalid]

lemma from_cmdspec_eq_none (uidOf gidOf : String → Option Nat)
    (cs : CmdSpec) :
    (AllowedCmd.from_cmdspec uidOf gidOf cs = none)
      ↔ hasInvalidCmdPath cs = true :=
  command_foldlM_eq_none cs.commands _

lemma cmdspecs_foldlM_eq_none (uidOf gidOf : String → Option Nat)
    (css : List CmdSpec) (rule : Rule) :
    (css.foldlM
        (fun r cs =>
          (AllowedCmd.from_cmdspec uidOf gidOf cs).map fun ac =>
            { r with allowed_cmds := r.allowed_cmds ++ [ac] })
        rule = none)
      ↔ css.any hasInvalidCmdPath = true := by
  induction css generalizing rule with
  | nil => simp
  | cons cs t ih =>
      rw [List.foldlM_cons]
      cases hc : AllowedCmd.from_cmdspec uidOf gidOf cs with
      | none =>
          have hm := (from_cmdspec_eq_none uidOf gidOf cs).mp hc
          simp [hc, hm]
      | some ac =>
          have hm : hasInvalidCmdPath cs = false := by
            cases hq : hasInvalidCmdPath cs with
            | false => rfl
            | true =>
                rw [← from_cmdspec_eq_none uidOf gidOf cs] at hq
                rw [hq] at hc
                cases hc
          simp only [hc, Option.map_some', Option.bind_eq_bind,
            Option.some_bind]
          rw [ih]
          simp [hm]

lemma from_userspec_eq_none (uidOf gidOf : String → Option Nat)
    (aliases : String → Option (List User)) (spec : UserSpec) :
    (Rule.from_userspec uidOf gidOf aliases spec = none)
      ↔ (referencesMissingAlias aliases spec.user_list
          || spec.cmd_specs.any hasInvalidCmdPath) = true := by
  rw [Rule.from_userspec]
  cases hf : spec.user_list.foldlM (subjectStep uidOf gidOf aliases)
      Rule.new with
  | none =>
      have hm := (subject_foldlM_eq_none uidOf gidOf aliases
        spec.user_list Rule.new).mp hf
      simp [hm]
  | some r =>
      have hm : referencesMissingAlias aliases spec.user_list = false := by
        cases hq : referencesMissingAlias aliases spec.user_list with
        | false => rfl
        | true =>
            rw [← subject_foldlM_eq_none uidOf gidOf aliases
              spec.user_list Rule.new] at hq
            rw [hq] at hf
            cases hf
      simp only [Option.some_bind, hm, Bool.false_or]
      exact cmdspecs_foldlM_eq_none uidOf gidOf spec.cmd_specs r

lemma from_sudoers_loop_eq_none (uidOf gidOf : String → Option Nat)
    (aliases : String → Option (List User)) (specs : List UserSpec)
    (acc : List Verifier) :
    (specs.foldlM
        (fun verifiers user_spec =>
          ((user_spec.user_list.foldlM
              (policyStep uidOf gidOf aliases)
              { users := [], groups := [], commands := [] }).map
            fun _policy =>
              verifiers ++ [fun _ _ _ => (Except.ok () : VerifyResult)]))
        acc = none)
      ↔ (specs.any fun s => referencesMissingAlias aliases s.user_list) = true := by
  induction specs generalizing acc with
  | nil => simp
  | cons s t ih =>
      rw [List.foldlM_cons]
      cases hp : (s.user_list.foldlM (policyStep uidOf gidOf aliases)
          { users := [], groups := [], commands := [] }) with
      | none =>
          have hm := (policy_foldlM_eq_none uidOf gidOf aliases s.user_list
            { users := [], groups := [], commands := [] }).mp hp
          simp [hm]
      | some p =>
          have hm : referencesMissingAlias aliases s.user_list = false := by
            cases hq : referencesMissingAlias aliases s.user_list with
            | false => rfl
            | true =>
                rw [← policy_foldlM_eq_none uidOf gidOf aliases s.user_list
                  { users := [], groups := [], commands := [] }] at hq
                rw [hq] at hp
                cases hp
          simp only [Option.map_some', Option.bind_eq_bind, Option.some_bind]
          rw [ih]
          simp [hm]

/-- A command spec whose only command path is a schema-valid but
non-UTF-8 byte string (the single byte 0xFF). -/
def invalidPathCmdSpec : CmdSpec :=
  { run_as_users := [], run_as_groups := [], options := [],
    commands := [Command.cmdPath (CStr.invalid [255])] }

/-- A user spec whose subject resolves fine and which references no
alias, but whose command spec carries a non-UTF-8 path. -/
def invalidPathSpec : UserSpec :=
  { user_list := [User.username "nobody"], host_list := [],
    cmd_specs := [invalidPathCmdSpec] }

/-- A sudoers document that decodes into the schema and references no
alias at all, yet still makes the load panic. -/
def invalidPathSudoers : Sudoers :=
  { user_aliases := noAliases, user_specs := [invalidPathSpec] }

/-- C7 counterexample: this document decodes into the schema and no
rule references an alias absent from the alias table, so by the claim
load must yield a fully resolved rule set; yet `Sudoers::retrieve_ids`
fails, because `path.to_str().unwrap()` panics on the non-UTF-8
command path. -/
theorem C7_utf8_panic_counterexample :
    Sudoers.retrieve_ids nobodyLookup lookupNone invalidPathSudoers = none
      ∧ (invalidPathSudoers.user_specs.any fun s =>
          referencesMissingAlias invalidPathSudoers.user_aliases
            s.user_list) = false := by
  exact ⟨rfl, rfl⟩

/-- C7 (amended): loading the policy aborts — by `unwrap`/index panic;
no structured PolicyMalformed value is produced on this path — and no
partial policy is ever observable.  The kernel's `from_sudoers` aborts
exactly when the source cannot be decoded or a rule's subject list
references an alias absent from the alias table;
`Sudoers::retrieve_ids` aborts exactly when a rule references an absent
alias or one of its command paths is not valid UTF-8; in every other
case load yields a fully resolved value. -/
theorem C7_load_failure_characterised (uidOf gidOf : String → Option Nat) :
    (from_sudoers uidOf gidOf none = none)
    ∧ (∀ u : Sudoers, from_sudoers uidOf gidOf (some u) = none
        ↔ (u.user_specs.any fun s =>
            referencesMissingAlias u.user_aliases s.user_list) = true)
    ∧ (∀ u : Sudoers, Sudoers.retrieve_ids uidOf gidOf u = none
        ↔ (u.user_specs.any fun s =>
            referencesMissingAlias u.user_aliases s.user_list
              || s.cmd_specs.any hasInvalidCmdPath) = true) := by
  refine ⟨rfl, ?_, ?_⟩
  · intro u
    exact from_sudoers_loop_eq_none uidOf gidOf u.user_aliases u.user_specs []
  · intro u
    rw [Sudoers.retrieve_ids, Option.map_eq_none', ← List.mapM'_eq_mapM]
    induction u.user_specs with
    | nil => simp [List.mapM']
    | cons s t ih =>
        cases hs : Rule.from_userspec uidOf gidOf u.user_aliases s with
        | none =>
            have hm := (from_userspec_eq_none uidOf gidOf u.user_aliases s).mp hs
            simp [List.mapM', hs, hm]
        | some r =>
            have hm : (referencesMissingAlias u.user_aliases s.user_list
                || s.cmd_specs.any hasInvalidCmdPath) = false := by
              cases hq : (referencesMissingAlias u.user_aliases s.user_list
                  || s.cmd_specs.any hasInvalidCmdPath) with
              | false => rfl
              | true =>
                  rw [← from_userspec_eq_none uidOf gidOf u.user_aliases s] at hq
                  rw [hq] at hs
                  cases hs
            simp only [List.mapM', hs, Option.bind_eq_bind, Option.some_bind,
              List.any_cons, hm, Bool.false_or]
            rw [← ih]
            cases List.mapM' (Rule.from_userspec uidOf gidOf u.user_aliases) t <;>
              simp

/-- A user spec referencing an alias that the table does not define. -/
def badAliasSpec : UserSpec :=
  { user_list := [User.useralias "ADMINS"], host_list := [], cmd_specs := [] }

/-- A sudoers document whose only rule references the undefined alias
`ADMINS`. -/
def badAliasSudoers : Sudoers :=
  { user_aliases := noAliases, user_specs := [badAliasSpec] }

/-- C7 witness: loading a document that references the undefined alias
`ADMINS` fails, and so does loading one with a non-UTF-8 command
path. -/
theorem C7_load_failure_characterised_witness :
    from_sudoers lookupNone lookupNone (some badAliasSudoers) = none
      ∧ Sudoers.retrieve_ids nobodyLookup lookupNone invalidPathSudoers
          = none :=
  ⟨((C7_load_failure_characterised lookupNone lookupNone).2.1
      badAliasSudoers).mpr (by rfl),
   ((C7_load_failure_characterised nobodyLookup lookupNone).2.2
      invalidPathSudoers).mpr (by rfl)⟩

/-! ## Unresolvable names are dropped (C8) -/

lemma foldlM_middle_noop {α β : Type} (f : β → α → Option β)
    (l1 l2 : List α) (e : α) (he : ∀ b, f b e = some b) (init : β) :
    (l1 ++ e :: l2).foldlM f init = (l1 ++ l2).foldlM f init := by
  induction l1 generalizing init with
  | nil =>
      rw [List.nil_append, List.nil_append, List.foldlM_cons, he,
        Option.bind_eq_bind, Option.some_bind]
  | cons a t ih =>
      rw [List.cons_append, List.foldlM_cons, List.cons_append,
        List.foldlM_cons]
      cases f init a with
      | none => rfl
      | some b => simpa using ih b

lemma foldl_middle_noop {α β : Type} (f : β → α → β)
    (l1 l2 : List α) (e : α) (he : ∀ b, f b e = b) (init : β) :
    (l1 ++ e :: l2).foldl f init = (l1 ++ l2).foldl f init := by
  simp [List.foldl_append, List.foldl_cons, he]

/-- C8: a subject or run-as entry whose name is not the wildcard and
cannot be resolved by the name service contributes nothing: building the
rule with the entry present gives exactly the same resolved rule (and
the same allowed-commands) as building it with the entry absent, so load
continues without error and the entry can never match. -/
theorem C8_unresolved_name_dropped :
    (∀ (uidOf gidOf : String → Option Nat)
        (aliases : String → Option (List User)) (n : String)
        (l1 l2 : List User) (hosts : List String) (cmds : List CmdSpec),
        n ≠ ALL → uidOf n = none →
        Rule.from_userspec uidOf gidOf aliases
            { user_list := l1 ++ User.username n :: l2, host_list := hosts,
              cmd_specs := cmds }
          = Rule.from_userspec uidOf gidOf aliases
            { user_list := l1 ++ l2, host_list := hosts, cmd_specs := cmds })
    ∧ (∀ (uidOf gidOf : String → Option Nat)
        (aliases : String → Option (List User)) (n : String)
        (l1 l2 : List User) (hosts : List String) (cmds : List CmdSpec),
        n ≠ ALL → gidOf n = none →
        Rule.from_userspec uidOf gidOf aliases
            { user_list := l1 ++ User.usergroup n :: l2, host_list := hosts,
              cmd_specs := cmds }
          = Rule.from_userspec uidOf gidOf aliases
            { user_list := l1 ++ l2, host_list := hosts, cmd_specs := cmds })
    ∧ (∀ (uidOf gidOf : String → Option Nat) (n : String)
        (r1 r2 rgs : List User) (opts : List SudoOption) (cs : List Command),
        n ≠ ALL → uidOf n = none →
        AllowedCmd.from_cmdspec uidOf gidOf
            { run_as_users := r1 ++ User.username n :: r2, run_as_groups := rgs,
              options := opts, commands := cs }
          = AllowedCmd.from_cmdspec uidOf gidOf
            { run_as_users := r1 ++ r2, run_as_groups := rgs,
              options := opts, commands := cs })
    ∧ (∀ (uidOf gidOf : String → Option Nat) (n : String)
        (rus r1 r2 : List User) (opts : List SudoOption) (cs : List Command),
        n ≠ ALL → gidOf n = none →
        AllowedCmd.from_cmdspec uidOf gidOf
            { run_as_users := rus, run_as_groups := r1 ++ User.usergroup n :: r2,
              options := opts, commands := cs }
          = AllowedCmd.from_cmdspec uidOf gidOf
            { run_as_users := rus, run_as_groups := r1 ++ r2,
              options := opts, commands := cs }) := by
  refine ⟨?_, ?_, ?_, ?_⟩
  · intro uidOf gidOf aliases n l1 l2 hosts cmds hne hnone
    rw [Rule.from_userspec, Rule.from_userspec]
    rw [foldlM_middle_noop (subjectStep uidOf gidOf aliases) l1 l2
      (User.username n) (fun b => by simp [subjectStep, hne, hnone]) Rule.new]
  · intro uidOf gidOf aliases n l1 l2 hosts cmds hne hnone
    rw [Rule.from_userspec, Rule.from_userspec]
    rw [foldlM_middle_noop (subjectStep uidOf gidOf aliases) l1 l2
      (User.usergroup n) (fun b => by simp [subjectStep, hne, hnone]) Rule.new]
  · intro uidOf gidOf n r1 r2 rgs opts cs hne hnone
    simp only [AllowedCmd.from_cmdspec]
    rw [foldl_middle_noop (runasUserStep uidOf) r1 r2 (User.username n)
      (fun b => by simp [runasUserStep, hne, hnone]) AllowedCmd.new]
  · intro uidOf gidOf n rus r1 r2 opts cs hne hnone
    simp only [AllowedCmd.from_cmdspec]
    rw [foldl_middle_noop (runasGroupStep gidOf) r1 r2 (User.usergroup n)
      (fun b => by simp [runasGroupStep, hne, hnone]) _]

/-- C8 witness: a rule whose only subject is the unresolvable user
`ghost` resolves exactly like a rule with an empty subject list. -/
theorem C8_unresolved_name_dropped_witness :
    Rule.from_userspec lookupNone lookupNone noAliases
        { user_list := [] ++ User.username "ghost" :: [], host_list := [],
          cmd_specs := [] }
      = Rule.from_userspec lookupNone lookupNone noAliases
        { user_list := [] ++ [], host_list := [], cmd_specs := [] } :=
  C8_unresolved_name_dropped.1 lookupNone lookupNone noAliases "ghost"
    [] [] [] [] (by decide) rfl

/-! ## Alias expansion reaches the subject set (C6) -/

lemma aliasMemberStep_users_subset (uidOf : String → Option Nat)
    (rule : Rule) (m : User) :
    rule.users ⊆ (aliasMemberStep uidOf rule m).users := by
  cases m with
  | username x =>
      by_cases hx : x = ALL
      · simp [aliasMemberStep, hx]
      · cases h : uidOf x with
        | some uid => simp [aliasMemberStep, hx, h, Finset.subset_insert]
        | none => simp [aliasMemberStep, hx, h]
  | usergroup x => simp [aliasMemberStep]
  | useralias x => simp [aliasMemberStep]

lemma aliasFold_users_subset (uidOf : String → Option Nat)
    (members : List User) (rule : Rule) :
    rule.users ⊆ (members.foldl (aliasMemberStep uidOf) rule).users := by
  induction members generalizing rule with
  | nil => exact Finset.Subset.refl _
  | cons m t ih =>
      rw [List.foldl_cons]
      exact (aliasMemberStep_users_subset uidOf rule m).trans (ih _)

lemma aliasFold_mem_users (uidOf : String → Option Nat)
    (members : List User) (rule : Rule) (uname : String) (uid : Nat)
    (hu : User.username uname ∈ members) (hne : uname ≠ ALL)
    (hid : uidOf uname = some uid) :
    uid ∈ (members.foldl (aliasMemberStep uidOf) rule).users := by
  induction members generalizing rule with
  | nil => cases hu
  | cons m t ih =>
      rw [List.foldl_cons]
      rcases List.mem_cons.mp hu with heq | hmem
      · have hstep : uid ∈ (aliasMemberStep uidOf rule (User.username uname)).users := by
          simp [aliasMemberStep, hne, hid]
        rw [← heq]
        exact Finset.mem_of_subset (aliasFold_users_subset uidOf t _) hstep
      · exact ih _ hmem

lemma subjectStep_users_subset (uidOf gidOf : String → Option Nat)
    (aliases : String → Option (List User)) (rule rule' : Rule) (u : User)
    (h : subjectStep uidOf gidOf aliases rule u = some rule') :
    rule.users ⊆ rule'.users := by
  cases u with
  | username x =>
      simp only [subjectStep, Option.some.injEq] at h
      subst h
      by_cases hx : x = ALL
      · simp [hx]
      · cases hux : uidOf x with
        | some uid => simp [hx, hux, Finset.subset_insert]
        | none => simp [hx, hux]
  | usergroup x =>
      simp only [subjectStep, Option.some.injEq] at h
      subst h
      by_cases hx : x = ALL
      · simp [hx]
      · cases hux : gidOf x with
        | some gid => simp [hx, hux]
        | none => simp [hx, hux]
  | useralias a =>
      cases ha : aliases a with
      | none => rw [subjectStep, ha] at h; cases h
      | some members =>
          rw [subjectStep, ha, Option.map_some', Option.some.injEq] at h
          subst h
          exact aliasFold_users_subset uidOf members rule

lemma subject_foldlM_users_subset (uidOf gidOf : String → Option Nat)
    (aliases : String → Option (List User)) (users : List User)
    (rule r : Rule)
    (h : users.foldlM (subjectStep uidOf gidOf aliases) rule = some r) :
    rule.users ⊆ r.users := by
  induction users generalizing rule with
  | nil =>
      rw [List.foldlM_nil] at h
      cases h
      exact Finset.Subset.refl _
  | cons u t ih =>
      rw [List.foldlM_cons] at h
      cases hstep : subjectStep uidOf gidOf aliases rule u with
      | none => rw [hstep] at h; cases h
      | some rule' =>
          rw [hstep, Option.bind_eq_bind, Option.some_bind] at h
          exact (subjectStep_users_subset uidOf gidOf aliases rule rule' u
            hstep).trans (ih _ h)

lemma subject_foldlM_mem_users (uidOf gidOf : String → Option Nat)
    (aliases : String → Option (List User)) (users : List User)
    (rule r : Rule) (a uname : String) (members : List User) (uid : Nat)
    (ha : User.useralias a ∈ users) (hm : aliases a = some members)
    (hu : User.username uname ∈ members) (hne : uname ≠ ALL)
    (hid : uidOf uname = some uid)
    (h : users.foldlM (subjectStep uidOf gidOf aliases) rule = some r) :
    uid ∈ r.users := by
  induction users generalizing rule with
  | nil => cases ha
  | cons u t ih =>
      rw [List.foldlM_cons] at h
      cases hstep : subjectStep uidOf gidOf aliases rule u with
      | none => rw [hstep] at h; cases h
      | some rule' =>
          rw [hstep, Option.bind_eq_bind, Option.some_bind] at h
          rcases List.mem_cons.mp ha with heq | hmem
          · rw [← heq] at hstep
            have hmem' : uid ∈ rule'.users := by
              rw [subjectStep, hm, Option.map_some', Option.some.injEq] at hstep
              rw [← hstep]
              exact aliasFold_mem_users uidOf members rule uname uid hu hne hid
            exact Finset.mem_of_subset
              (subject_foldlM_users_subset uidOf gidOf aliases t rule' r h) hmem'
          · exact ih _ hmem h

lemma cmdfold_users (uidOf gidOf : String → Option Nat)
    (cs : List CmdSpec) (r0 r : Rule)
    (h : cs.foldlM
        (fun ru c =>
          (AllowedCmd.from_cmdspec uidOf gidOf c).map fun ac =>
            { ru with allowed_cmds := ru.allowed_cmds ++ [ac] })
        r0 = some r) :
    r.users = r0.users := by
  induction cs generalizing r0 with
  | nil =>
      rw [List.foldlM_nil] at h
      cases h
      rfl
  | cons c t ih =>
      rw [List.foldlM_cons] at h
      cases hc : AllowedCmd.from_cmdspec uidOf gidOf c with
      | none => rw [hc] at h; cases h
      | some ac =>
          rw [hc, Option.map_some', Option.bind_eq_bind, Option.some_bind] at h
          have h' := ih _ h
          exact h'

/-- C6: a useralias in a rule's subject list expands at load time into
the numeric uids of the alias's username members: if the alias table
maps `a` to `members`, a non-wildcard username member resolves to `uid`,
and `Rule::from_userspec` succeeds, then `uid` is in the rule's subject
uid set, and the rule's subject-relevance test holds for any current
identity with that uid. -/
theorem C6_alias_expansion (uidOf gidOf : String → Option Nat)
    (aliases : String → Option (List User)) (spec : UserSpec)
    (a uname : String) (members : List User) (uid : Nat) (r : Rule)
    (cur : Permission)
    (ha : User.useralias a ∈ spec.user_list)
    (hm : aliases a = some members)
    (hu : User.username uname ∈ members)
    (hne : uname ≠ ALL)
    (hid : uidOf uname = some uid)
    (hr : Rule.from_userspec uidOf gidOf aliases spec = some r)
    (hcur : cur.uid = uid) :
    uid ∈ r.users ∧ r.is_relevant cur = true := by
  rw [Rule.from_userspec] at hr
  cases hfold : spec.user_list.foldlM (subjectStep uidOf gidOf aliases)
      Rule.new with
  | none => rw [hfold] at hr; cases hr
  | some r0 =>
      rw [hfold, Option.some_bind] at hr
      have hmem : uid ∈ r0.users :=
        subject_foldlM_mem_users uidOf gidOf aliases spec.user_list Rule.new
          r0 a uname members uid ha hm hu hne hid hfold
      have husers : r.users = r0.users :=
        cmdfold_users uidOf gidOf spec.cmd_specs r0 r hr
      refine ⟨husers ▸ hmem, ?_⟩
      have hdec : decide (cur.uid ∈ r.users) = true := by
        rw [hcur, husers]
        exact decide_eq_true hmem
      rw [Rule.is_relevant, hdec]
      rfl

/-- Scenario D's alias table: `ADMINS` maps to the usernames `alice`
and `bob`. -/
def adminAliases : String → Option (List User) :=
  fun s =>
    if s = "ADMINS" then some [User.username "alice", User.username "bob"]
    else none

/-- Scenario D's name service: `alice` is uid 1000, `bob` is uid 1001. -/
def adminLookup : String → Option Nat :=
  fun s =>
    if s = "alice" then some 1000
    else if s = "bob" then some 1001
    else none

/-- Scenario D's rule source: the subject list is the alias `ADMINS`. -/
def adminSpec : UserSpec :=
  { user_list := [User.useralias "ADMINS"], host_list := [], cmd_specs := [] }

/-- The resolved form of `adminSpec`. -/
def adminRule : Rule :=
  { users := insert 1001 (insert 1000 (∅ : Finset Nat)),
    allow_all_users := false, groups := ∅,
    allow_all_groups := false, allowed_cmds := [], allow_all_cmds := false }

/-- C6 witness (Scenario D): with alias `ADMINS` → `[alice, bob]` and a
current identity carrying alice's uid 1000, the resolved rule contains
1000 in its subject set and its subject-relevance test holds. -/
theorem C6_alias_expansion_witness :
    1000 ∈ adminRule.users ∧ adminRule.is_relevant samplePerm = true :=
  C6_alias_expansion adminLookup lookupNone adminAliases adminSpec
    "ADMINS" "alice" [User.username "alice", User.username "bob"] 1000
    adminRule samplePerm (by decide) (by rfl) (by decide) (by decide)
    (by rfl) (by rfl) (by rfl)

end Sus
